import Mathlib

/-!
Verification of `olivier.py` (SQLAlchemy + Alembic → pydantic model code generator).

This file shallowly embeds the data model and the four functions of
`src/SQLAlchemy + Alembic/olivier.py`:

* `TypeInfo`, `FieldDefinition`, `ModelDefinition` — the TypedDicts of lines 20–39.
  `NotRequired` keys are modelled as `Option` fields (a bool key that may be
  absent-or-False is `Option Bool`: `some true` is the only truthy value, matching
  Python's `t.get("list")` truthiness checks).  The `alias` key is spelled `alias_`
  because `alias` is reserved in Lean.
* `detect_typeinfo` (lines 139–197) — the Python type object it walks is embedded as
  the inductive `PyType`, one constructor per branch of the dispatch.
* `build_model_definitions` (lines 42–136), split into the same phases as the
  source: import collection, class-line rendering and the final import re-rendering.
  The `defaultdict(set)` of import items is modelled as an insertion-ordered
  association list with duplicate-free insertion (`addImport`); since a CPython
  `set`'s iteration order is unspecified across runs, the determinism claim is
  settled by proving the rendered text invariant under permutations of that list.
* `sqlalchemy_model_to_pydantic_model_definition` (lines 200–232) — the reflected
  SQLAlchemy mapper data is embedded as `SAClass` (columns and relationships).
* `create_partial` (lines 235–273) — `createPartial` below (pure value level), plus a
  small heap model (`Heap`, `decodeModel`, `allocModel`, `createPartialHeap`) for the
  deep-copy-isolation property, where the Python dicts making up a model live at
  addresses and caller mutation is an update of an address reachable from the input.

Fallible Python code returns `Except PyErr`.
-/

/-- Python exceptions raised by the embedded code. -/
inductive PyErr where
  | notImplementedError : PyErr
  | valueError : String → PyErr
  | attributeError : PyErr
  | indexError : PyErr
  | typeError : PyErr
deriving DecidableEq

/-- `class TypeInfo(TypedDict)` (olivier.py lines 20–25). `NotRequired` keys are
`Option` fields; `none` is an absent key. `alias_` is the `alias` key. -/
structure TypeInfo where
  name : String
  import_from : Option String := none
  alias_ : Option String := none
  list : Option Bool := none
  optional : Option Bool := none
deriving DecidableEq

/-- `class FieldDefinition(TypedDict)` (olivier.py lines 28–31). -/
structure FieldDefinition where
  name : String
  type : TypeInfo
  default : Option String := none
deriving DecidableEq

/-- A value of a `ConfigDict` entry: either a `str` (rendered with single quotes,
line 97) or any other object, carried by its `repr` text (line 99). -/
inductive CfgVal where
  | s : String → CfgVal
  | other : String → CfgVal
deriving DecidableEq

/-- `class ModelDefinition(TypedDict)` (olivier.py lines 34–39). The `config`
mapping is a `ConfigDict`; a Python dict iterates in insertion order, so it is
embedded as an association list. -/
structure ModelDefinition where
  name : String
  description : Option String := none
  fields : List FieldDefinition
  base : Option TypeInfo := none
  config : List (String × CfgVal) := []
deriving DecidableEq

/-- A Python type object as dispatched on by `detect_typeinfo` (olivier.py 139–197):
one constructor per branch of the function.
* `mapped t` — `Mapped[t]` (origin is `Mapped`).
* `union args` — a `Union[...]`/`X | Y` with argument tuple `args`.
* `noneType` — `type(None)`.
* `listType t` — `list[t]` (origin is `list`).
* `typedDictType module name` — an object with `__annotations__` reaching line 171
  (module and qualified name as reported by the object).
* `dictType` — origin is `dict`.
* `classType module qualname` — a class without `__annotations__` reaching line 182.
* `other s` — anything else; `s` is `str(t)`. -/
inductive PyType where
  | mapped : PyType → PyType
  | union : List PyType → PyType
  | noneType : PyType
  | listType : PyType → PyType
  | typedDictType : String → String → PyType
  | dictType : PyType
  | classType : String → String → PyType
  | other : String → PyType

/-- `t is type(None)`: whether a type object is exactly `NoneType`. -/
def PyType.isNone : PyType → Bool
  | PyType.noneType => true
  | _ => false

/-- `detect_typeinfo` (olivier.py lines 139–197). Raising is `Except.error`;
`non_none_args[0]` on an empty list is the `IndexError` case. -/
def detect_typeinfo : PyType → Except PyErr TypeInfo
  | PyType.mapped inner => detect_typeinfo inner
  | PyType.union args =>
    -- non_none_args = [arg for arg in args if arg is not type(None)]
    if 1 < (args.filter (fun a => !a.isNone)).length then
      Except.error PyErr.notImplementedError
    else
      match h : args.filter (fun a => !a.isNone) with
      | [] => Except.error PyErr.indexError
      | a :: _ =>
        match detect_typeinfo a with
        | Except.error e => Except.error e
        | Except.ok r =>
          -- optional = type(None) in args; if optional: result["optional"] = True
          Except.ok (if args.any PyType.isNone then { r with optional := some true } else r)
  | PyType.noneType => Except.ok { name := "None" }
  | PyType.listType arg =>
    match detect_typeinfo arg with
    | Except.error e => Except.error e
    | Except.ok r => Except.ok { r with list := some true }
  | PyType.typedDictType module nm =>
    if module = "builtins" ∨ module = "__builtin__" then Except.ok { name := nm }
    else Except.ok { name := nm, import_from := some module }
  | PyType.dictType => Except.ok { name := "dict" }
  | PyType.classType module nm =>
    if module = "builtins" ∨ module = "__builtin__" then Except.ok { name := nm }
    else if nm = "UUID" ∧ module = "uuid" then
      Except.ok { name := "UUID", import_from := some "uuid" }
    else if module = "datetime" then Except.ok { name := nm, import_from := some "datetime" }
    else Except.ok { name := nm, import_from := some module }
  | PyType.other s => Except.ok { name := s }
termination_by t => sizeOf t
decreasing_by
  · simp_wf
  · have ha : a ∈ args := by
      refine List.mem_of_mem_filter (p := fun a => !a.isNone) ?_
      rw [h]; exact List.mem_cons_self a _
    have := List.sizeOf_lt_of_mem ha
    simp_wf; omega
  · simp_wf

/-- C1: a union with more than one non-`None` alternative raises
`NotImplementedError` unconditionally; with exactly one non-`None` alternative it
returns that alternative's `TypeInfo`, marked optional when `None` is among the
union's alternatives. -/
theorem c1_detect_typeinfo_union (args : List PyType) :
    (1 < (args.filter (fun a => !a.isNone)).length →
      detect_typeinfo (PyType.union args) = Except.error PyErr.notImplementedError) ∧
    (∀ a, args.filter (fun a => !a.isNone) = [a] →
      detect_typeinfo (PyType.union args) =
        (detect_typeinfo a).map
          (fun r => if args.any PyType.isNone then { r with optional := some true } else r)) := by
  constructor
  · intro hlen
    rw [detect_typeinfo]
    simp [hlen]
  · intro a hfilter
    rw [detect_typeinfo]
    have hlen : ¬ 1 < (args.filter (fun a => !a.isNone)).length := by
      rw [hfilter]; simp
    simp only [hlen, if_false]
    split
    · next heq => rw [hfilter] at heq; exact absurd heq (by simp)
    · next b l heq =>
      rw [hfilter] at heq
      cases heq
      cases hd : detect_typeinfo a <;> simp [Except.map, hd]

/-- Witness for C1 at concrete unions. -/
theorem c1_detect_typeinfo_union_witness :
    detect_typeinfo (PyType.union [PyType.classType "m" "A", PyType.classType "m" "B"]) =
      Except.error PyErr.notImplementedError ∧
    detect_typeinfo (PyType.union [PyType.classType "m" "A", PyType.noneType]) =
      Except.ok { name := "A", import_from := some "m", optional := some true } := by
  constructor
  · exact (c1_detect_typeinfo_union [PyType.classType "m" "A", PyType.classType "m" "B"]).1
      (by simp [PyType.isNone, List.filter])
  · have := (c1_detect_typeinfo_union [PyType.classType "m" "A", PyType.noneType]).2
      (PyType.classType "m" "A") (by simp [PyType.isNone, List.filter])
    rw [this]
    simp [detect_typeinfo, PyType.isNone, Except.map]

/-- A value of the `map` argument of `create_partial`: `dict[str, str | FieldDefinition]`
(olivier.py line 239). A `FieldDefinition` value is, at runtime, a plain dict. -/
inductive MapVal where
  | str : String → MapVal
  | fieldDef : FieldDefinition → MapVal
deriving DecidableEq

/-- The runtime classes `type(val)` can yield for a `MapVal`, plus the
`FieldDefinition` TypedDict class object itself (which `create_partial` compares
against at line 255). -/
inductive PyClass where
  | strClass : PyClass
  | dictClass : PyClass
  | fieldDefinitionClass : PyClass
deriving DecidableEq

/-- `type(val)`: a `str` value has class `str`; a runtime value of the
`FieldDefinition` TypedDict is a plain `dict`, so its class is `dict` — it is never
the `FieldDefinition` class object itself. -/
def MapVal.pyType : MapVal → PyClass
  | MapVal.str _ => PyClass.strClass
  | MapVal.fieldDef _ => PyClass.dictClass

/-- The body of the `for idx, field in enumerate(model["fields"])` loop of
`create_partial` (olivier.py lines 250–256), for one field. -/
def mapStep (map : List (String × MapVal)) (f : FieldDefinition) : FieldDefinition :=
  match List.lookup f.name map with
  | none => f
  | some val =>
    -- if type(val) is str: field["name"] = val
    let f1 := match val, decide (val.pyType = PyClass.strClass) with
      | MapVal.str v, true => { f with name := v }
      | _, _ => f
    -- if type(val) is FieldDefinition: model["fields"][idx] = val
    match val, decide (val.pyType = PyClass.fieldDefinitionClass) with
    | MapVal.fieldDef fd, true => fd
    | _, _ => f1

/-- Python truthiness of a `set[str] | None` argument: `None` and the empty set are
falsy. -/
def setTruthy : Option (List String) → Bool
  | some l => decide (l ≠ [])
  | none => false

/-- `create_partial` (olivier.py lines 235–273). `deepcopy` of an immutable value is
the value itself at this level (sharing is studied separately in the heap model
below). The `include` parameter is spelled `include_` (`include` is reserved in
Lean). Sets of names are carried as lists; only membership and truthiness are used. -/
def createPartial (base : ModelDefinition) (name : Option String)
    (map : List (String × MapVal))
    (include_ exclude required optional : Option (List String)) :
    Except PyErr ModelDefinition :=
  let model := base
  -- if name: model["name"] = name
  let model := match name with
    | some n => if n ≠ "" then { model with name := n } else model
    | none => model
  let model := { model with fields := model.fields.map (mapStep map) }
  -- if include and exclude: raise ValueError
  if setTruthy include_ && setTruthy exclude then Except.error (PyErr.valueError "")
  else
    let model := if setTruthy include_ then
        { model with fields := model.fields.filter (fun f => decide (f.name ∈ include_.getD [])) }
      else model
    let model := if setTruthy exclude then
        { model with fields := model.fields.filter (fun f => decide (f.name ∉ exclude.getD [])) }
      else model
    -- for field in model["fields"]: toggle optionality
    let model := { model with fields := model.fields.map (fun f =>
        let f := if setTruthy required && decide (f.name ∈ required.getD [])
          then { f with type := { f.type with optional := some false } } else f
        if setTruthy optional && decide (f.name ∈ optional.getD [])
          then { f with type := { f.type with optional := some true } } else f) }
    Except.ok model

/-- C8 counterexample: supplying both an include set and an exclude set does NOT
raise `ValueError` when the include set is empty — Python's `if include and exclude`
tests truthiness, and an empty set is falsy. The call returns a model definition. -/
theorem c8_counterexample :
    createPartial
      { name := "M", fields := [{ name := "a", type := { name := "int" } }], config := [] }
      none [] (some []) (some ["a"]) none none =
    Except.ok { name := "M", fields := [], config := [] } := by
  rfl

/-- C8 (amended): supplying both a non-empty include set and a non-empty exclude set
makes `create_partial` fail immediately with `ValueError`. -/
theorem c8_include_exclude_valueerror (base : ModelDefinition) (name : Option String)
    (map : List (String × MapVal)) (incl excl req opt : Option (List String))
    (h1 : setTruthy incl = true) (h2 : setTruthy excl = true) :
    createPartial base name map incl excl req opt = Except.error (PyErr.valueError "") := by
  simp [createPartial, h1, h2]

/-- Witness for C8 (amended) at a concrete call. -/
theorem c8_include_exclude_valueerror_witness :
    createPartial
      { name := "M", fields := [{ name := "a", type := { name := "int" } }], config := [] }
      none [] (some ["a"]) (some ["b"]) none none = Except.error (PyErr.valueError "") :=
  c8_include_exclude_valueerror _ none [] (some ["a"]) (some ["b"]) none none
    (by decide) (by decide)

/-- A `map` entry whose value is a `str` (the only kind with any effect). -/
def isStrEntry (kv : String × MapVal) : Bool :=
  match kv.2 with
  | MapVal.str _ => true
  | MapVal.fieldDef _ => false

theorem lookup_eq_none_of_not_mem_keys {l : List (String × MapVal)} {k : String}
    (h : k ∉ l.map Prod.fst) : List.lookup k l = none := by
  induction l with
  | nil => rfl
  | cons p rest ih =>
    simp only [List.map_cons, List.mem_cons] at h
    push_neg at h
    simp [List.lookup, beq_eq_false_iff_ne.mpr h.1, ih h.2]

theorem lookup_filter_str {l : List (String × MapVal)} (hnd : (l.map Prod.fst).Nodup)
    (k : String) :
    List.lookup k (l.filter isStrEntry) =
      match List.lookup k l with
      | some (MapVal.str v) => some (MapVal.str v)
      | _ => none := by
  induction l with
  | nil => rfl
  | cons p rest ih =>
    obtain ⟨k', v'⟩ := p
    simp only [List.map_cons, List.nodup_cons] at hnd
    by_cases hk : k = k'
    · subst hk
      cases v' with
      | str s => simp [List.filter, isStrEntry, List.lookup]
      | fieldDef fd =>
        have hnone : List.lookup k (rest.filter isStrEntry) = none := by
          refine lookup_eq_none_of_not_mem_keys (fun hmem => hnd.1 ?_)
          obtain ⟨q, hq, hqk⟩ := List.mem_map.mp hmem
          exact List.mem_map.mpr ⟨q, List.mem_of_mem_filter hq, hqk⟩
        simp [List.filter, isStrEntry, List.lookup, hnone]
    · have hbeq : (k == k') = false := beq_eq_false_iff_ne.mpr hk
      cases v' with
      | str s => simp [List.filter, isStrEntry, List.lookup, hbeq, ih hnd.2]
      | fieldDef fd => simp [List.filter, isStrEntry, List.lookup, hbeq, ih hnd.2]

theorem mapStep_fieldDef {map : List (String × MapVal)} {f fd : FieldDefinition}
    (h : List.lookup f.name map = some (MapVal.fieldDef fd)) : mapStep map f = f := by
  simp [mapStep, h, MapVal.pyType]

/-- C10: a `map` entry carrying a field descriptor never replaces the matching
field — `type(val) is FieldDefinition` is `False` for a runtime dict — so the field
passes through unchanged, and dropping all non-string entries from `map` leaves
`create_partial` unchanged on every input. -/
theorem c10_fielddef_entries_inert (map : List (String × MapVal)) :
    (∀ (f fd : FieldDefinition),
        List.lookup f.name map = some (MapVal.fieldDef fd) → mapStep map f = f) ∧
    (∀ (base : ModelDefinition) (name : Option String)
        (incl excl req opt : Option (List String)),
        (map.map Prod.fst).Nodup →
        createPartial base name map incl excl req opt =
          createPartial base name (map.filter isStrEntry) incl excl req opt) := by
  constructor
  · intro f fd h
    exact mapStep_fieldDef h
  · intro base name incl excl req opt hnd
    have hstep : ∀ f, mapStep (map.filter isStrEntry) f = mapStep map f := by
      intro f
      have hlk := lookup_filter_str hnd f.name
      cases hl : List.lookup f.name map with
      | none =>
        rw [hl] at hlk
        simp only [mapStep, hl, hlk]
      | some val =>
        cases val with
        | str v =>
          rw [hl] at hlk
          simp only [mapStep, hl, hlk]
        | fieldDef fd =>
          rw [hl] at hlk
          rw [mapStep_fieldDef hl]
          simp only [mapStep, hlk]
    have hfun : mapStep (map.filter isStrEntry) = mapStep map := funext hstep
    simp only [createPartial, hfun]

/-- Witness for C10 at a concrete map, field and call. -/
theorem c10_fielddef_entries_inert_witness :
    mapStep [("a", MapVal.fieldDef { name := "z", type := { name := "str" } })]
      { name := "a", type := { name := "int" } } =
      { name := "a", type := { name := "int" } } ∧
    createPartial { name := "M", fields := [{ name := "a", type := { name := "int" } }] }
      none [("a", MapVal.fieldDef { name := "z", type := { name := "str" } })]
      none none none none =
    createPartial { name := "M", fields := [{ name := "a", type := { name := "int" } }] }
      none ([("a", MapVal.fieldDef { name := "z", type := { name := "str" } })].filter isStrEntry)
      none none none none := by
  constructor
  · exact (c10_fielddef_entries_inert
      [("a", MapVal.fieldDef { name := "z", type := { name := "str" } })]).1
      { name := "a", type := { name := "int" } } { name := "z", type := { name := "str" } } rfl
  · exact (c10_fielddef_entries_inert
      [("a", MapVal.fieldDef { name := "z", type := { name := "str" } })]).2
      { name := "M", fields := [{ name := "a", type := { name := "int" } }] }
      none none none none none (by decide)

/-- One reflected column of a mapper (olivier.py lines 213–217): its name, the
resolved type object `type_hints.get(col.name, col.type.python_type)`, and its
nullability flag. -/
structure SAColumn where
  name : String
  hintType : PyType
  nullable : Bool

/-- One reflected relationship (olivier.py lines 219–226): its key, the resolved
name `getattr(rel.mapper.class_, "__pydantic_model__", rel_cls.__name__)`, and
`rel.uselist` (a bool or `None`). -/
structure SARelationship where
  key : String
  targetPydanticName : String
  uselist : Option Bool

/-- A Python attribute value that is either a `str` or some non-`str` object
(carried by its repr). -/
inductive PyAttrVal where
  | str : String → PyAttrVal
  | nonStr : String → PyAttrVal

/-- A mapped SQLAlchemy class as seen through `sa_inspect` plus its
`__pydantic_model__` attribute (absent = `none`). -/
structure SAClass where
  pydantic_model : Option PyAttrVal := none
  columns : List SAColumn
  relationships : List SARelationship

/-- A Python for-loop that appends `f a` for each element, propagating the first
raised exception. -/
def mapLoop (f : α → Except ε β) : List α → Except ε (List β)
  | [] => Except.ok []
  | a :: as =>
    match f a with
    | Except.error e => Except.error e
    | Except.ok b =>
      match mapLoop f as with
      | Except.error e => Except.error e
      | Except.ok bs => Except.ok (b :: bs)

/-- The body of the columns loop (olivier.py lines 213–217) for one column. -/
def columnField (col : SAColumn) : Except PyErr FieldDefinition :=
  match detect_typeinfo col.hintType with
  | Except.error e => Except.error e
  | Except.ok t =>
    Except.ok { name := col.name,
                type := if col.nullable then { t with optional := some true } else t }

/-- The body of the relationships loop (olivier.py lines 219–226) for one
relationship: `{"name": ..., "list": rel.uselist or False, "optional": True}` with
a `"None"` default. -/
def relationshipField (rel : SARelationship) : FieldDefinition :=
  { name := rel.key,
    type := { name := rel.targetPydanticName,
              list := some (rel.uselist.getD false),
              optional := some true },
    default := some "None" }

/-- `sqlalchemy_model_to_pydantic_model_definition` (olivier.py lines 200–232).
`getattr(cls, "__pydantic_model__")` with the attribute absent raises
`AttributeError`; a present non-`str` value fails the `type(name) is not str`
check with `ValueError`. -/
def sqlalchemy_model_to_pydantic_model_definition (cls : SAClass)
    (name : Option String) : Except PyErr ModelDefinition :=
  match (match name with
    | some n => Except.ok (PyAttrVal.str n)
    | none =>
      match cls.pydantic_model with
      | some v => Except.ok v
      | none => Except.error PyErr.attributeError) with
  | Except.error e => Except.error e
  | Except.ok nv =>
    match nv with
    | PyAttrVal.nonStr _ => Except.error (PyErr.valueError "name is not specified")
    | PyAttrVal.str nm =>
      match mapLoop columnField cls.columns with
      | Except.error e => Except.error e
      | Except.ok colFields =>
        Except.ok { name := nm,
                    fields := colFields ++ cls.relationships.map relationshipField,
                    config := [("extra", CfgVal.s "forbid")] }

theorem mapLoop_ok {f : α → Except ε β} {l : List α} {l' : List β}
    (h : mapLoop f l = Except.ok l') :
    l'.length = l.length ∧
      ∀ i (hi : i < l.length) (hi' : i < l'.length), f l[i] = Except.ok l'[i] := by
  induction l generalizing l' with
  | nil =>
    simp only [mapLoop] at h
    cases h
    exact ⟨rfl, fun i hi => absurd hi (by simp)⟩
  | cons a as ih =>
    simp only [mapLoop] at h
    cases hf : f a with
    | error e => rw [hf] at h; simp at h
    | ok b =>
      rw [hf] at h
      cases hr : mapLoop f as with
      | error e => rw [hr] at h; simp at h
      | ok bs =>
        rw [hr] at h
        cases h
        obtain ⟨hlen, hpt⟩ := ih hr
        refine ⟨by simp [hlen], ?_⟩
        intro i hi hi'
        cases i with
        | zero => simpa using hf
        | succ n =>
          simp only [List.getElem_cons_succ]
          exact hpt n (by simpa using hi) (by simpa using hi')

/-- C3: when conversion succeeds, the field produced for a nullable column is
optional, and the field produced for a list-valued relationship (at offset
`columns.length + j`) has the list flag set, the optional flag set and default
text `"None"`. -/
theorem c3_nullable_optional_list_relationship (cls : SAClass) (nm : Option String)
    (md : ModelDefinition)
    (h : sqlalchemy_model_to_pydantic_model_definition cls nm = Except.ok md) :
    (∀ i (hi : i < cls.columns.length), (cls.columns[i]).nullable = true →
      ∃ hf : i < md.fields.length, (md.fields[i]).type.optional = some true) ∧
    (∀ j (hj : j < cls.relationships.length),
      (cls.relationships[j]).uselist.getD false = true →
      ∃ hf : cls.columns.length + j < md.fields.length,
        (md.fields[cls.columns.length + j]).type.list = some true ∧
        (md.fields[cls.columns.length + j]).type.optional = some true ∧
        (md.fields[cls.columns.length + j]).default = some "None") := by
  unfold sqlalchemy_model_to_pydantic_model_definition at h
  split at h
  · simp at h
  · split at h
    · simp at h
    · cases hml : mapLoop columnField cls.columns with
      | error e => rw [hml] at h; simp at h
      | ok colFields =>
        rw [hml] at h
        cases h
        obtain ⟨hlen, hpt⟩ := mapLoop_ok hml
        constructor
        · intro i hi hnul
          have hic : i < colFields.length := by omega
          have hf : i < (colFields ++ cls.relationships.map relationshipField).length := by
            simp only [List.length_append, List.length_map]; omega
          refine ⟨hf, ?_⟩
          have hfe : (colFields ++ cls.relationships.map relationshipField)[i] =
              colFields[i] := List.getElem_append_left hic
          rw [hfe]
          have hcf := hpt i hi hic
          unfold columnField at hcf
          cases hd : detect_typeinfo (cls.columns[i]).hintType with
          | error e => rw [hd] at hcf; simp at hcf
          | ok t =>
            rw [hd] at hcf
            simp only [hnul, if_true] at hcf
            injection hcf with hcf
            rw [← hcf]
        · intro j hj huse
          have hf : cls.columns.length + j <
              (colFields ++ cls.relationships.map relationshipField).length := by
            simp only [List.length_append, List.length_map]; omega
          refine ⟨hf, ?_⟩
          have hfe : (colFields ++ cls.relationships.map relationshipField)[cls.columns.length + j] =
              relationshipField cls.relationships[j] := by
            rw [List.getElem_append_right (by omega : colFields.length ≤ cls.columns.length + j)]
            have hidx : cls.columns.length + j - colFields.length = j := by omega
            simp [hidx]
          rw [hfe]
          exact ⟨by simp [relationshipField, huse], rfl, rfl⟩

/-- A concrete mapped class: one nullable UUID column, one list-valued
relationship. -/
def saExample : SAClass :=
  { pydantic_model := none,
    columns := [{ name := "id", hintType := PyType.classType "uuid" "UUID", nullable := true }],
    relationships := [{ key := "items", targetPydanticName := "Item", uselist := some true }] }

/-- Witness for C3 at `saExample`. -/
theorem c3_nullable_optional_list_relationship_witness :
    ∃ md, sqlalchemy_model_to_pydantic_model_definition saExample (some "M") = Except.ok md ∧
      (∃ hf : 0 < md.fields.length, (md.fields[0]).type.optional = some true) ∧
      (∃ hf : 1 < md.fields.length,
        (md.fields[1]).type.list = some true ∧
        (md.fields[1]).type.optional = some true ∧
        (md.fields[1]).default = some "None") := by
  have h : sqlalchemy_model_to_pydantic_model_definition saExample (some "M") =
      Except.ok
        { name := "M",
          fields := [{ name := "id",
                       type := { name := "UUID", import_from := some "uuid",
                                 optional := some true } },
                     { name := "items",
                       type := { name := "Item", list := some true, optional := some true },
                       default := some "None" }],
          config := [("extra", CfgVal.s "forbid")] } := by
    simp [sqlalchemy_model_to_pydantic_model_definition, saExample, mapLoop, columnField,
      relationshipField, detect_typeinfo]
  have hc := c3_nullable_optional_list_relationship saExample (some "M") _ h
  refine ⟨_, h, ?_, ?_⟩
  · exact hc.1 0 (by simp [saExample]) (by simp [saExample])
  · have hr := hc.2 0 (by simp [saExample]) (by simp [saExample])
    simp only [saExample] at hr
    exact hr

/-- C9: called without an explicit name, conversion fails immediately when the
class carries no `__pydantic_model__` attribute (`AttributeError` from `getattr`)
or carries a non-string one (`ValueError`). -/
theorem c9_unset_name_fails (cls : SAClass) :
    (cls.pydantic_model = none →
      sqlalchemy_model_to_pydantic_model_definition cls none =
        Except.error PyErr.attributeError) ∧
    (∀ r, cls.pydantic_model = some (PyAttrVal.nonStr r) →
      sqlalchemy_model_to_pydantic_model_definition cls none =
        Except.error (PyErr.valueError "name is not specified")) := by
  constructor
  · intro h
    simp [sqlalchemy_model_to_pydantic_model_definition, h]
  · intro r h
    simp [sqlalchemy_model_to_pydantic_model_definition, h]

/-- Witness for C9 at two concrete classes. -/
theorem c9_unset_name_fails_witness :
    sqlalchemy_model_to_pydantic_model_definition
      { pydantic_model := none, columns := [], relationships := [] } none =
      Except.error PyErr.attributeError ∧
    sqlalchemy_model_to_pydantic_model_definition
      { pydantic_model := some (PyAttrVal.nonStr "<class M>"), columns := [],
        relationships := [] } none =
      Except.error (PyErr.valueError "name is not specified") := by
  constructor
  · exact (c9_unset_name_fails
      { pydantic_model := none, columns := [], relationships := [] }).1 rfl
  · exact (c9_unset_name_fails
      { pydantic_model := some (PyAttrVal.nonStr "<class M>"), columns := [],
        relationships := [] }).2 "<class M>" rfl

/-- Lexicographic strict comparison of char sequences by code point — Python's
`<` on `str`. -/
def charsLt : List Char → List Char → Bool
  | [], [] => false
  | [], _ :: _ => true
  | _ :: _, [] => false
  | a :: as, b :: bs =>
    if a.toNat < b.toNat then true
    else if b.toNat < a.toNat then false
    else charsLt as bs

/-- Lexicographic non-strict comparison of char sequences by code point —
Python's `<=` on `str`. -/
def charsLe : List Char → List Char → Bool
  | [], _ => true
  | _ :: _, [] => false
  | a :: as, b :: bs =>
    if a.toNat < b.toNat then true
    else if b.toNat < a.toNat then false
    else charsLe as bs

/-- Python's `<` on `str`. -/
def pyStrLt (a b : String) : Prop := charsLt a.data b.data = true

/-- Python's `<=` on `str`. -/
def pyStrLe (a b : String) : Prop := charsLe a.data b.data = true

instance : DecidableRel pyStrLt := fun a b => by unfold pyStrLt; infer_instance

instance : DecidableRel pyStrLe := fun a b => by unfold pyStrLe; infer_instance

/-- An import item `(name, alias)` as stored in a per-module set (line 52). -/
abbrev ImportItem := String × Option String

/-- The `imports` mapping `module -> {(name, alias)}` of line 52: a
`defaultdict(set)` embedded as an association list in key-insertion order, each
module's set being a list in element-insertion order, deduplicated on insertion.
Rendering sorts; `c5_build_model_definitions_deterministic` shows that any other
enumeration order of the same sets yields the same text, so nothing depends on
this canonical order. -/
abbrev Imports := List (String × List ImportItem)

/-- Set insertion: `imports[module].add(item)` for one module's set. -/
def insItem (its : List ImportItem) (it : ImportItem) : List ImportItem :=
  if it ∈ its then its else its ++ [it]

/-- `imports[module].add(item)`: a missing module is created at the end
(`defaultdict` key-insertion order). -/
def addImport (imps : Imports) (module : String) (it : ImportItem) : Imports :=
  match imps with
  | [] => [(module, [it])]
  | (m, its) :: rest =>
    if m = module then (m, insItem its it) :: rest
    else (m, its) :: addImport rest module it

/-- The base-type import of one model (olivier.py lines 56–58): added when `base`
is present with a truthy `import_from` (the walrus test of line 57 — an empty
string is falsy). -/
def baseImport (imps : Imports) (m : ModelDefinition) : Imports :=
  match m.base with
  | some b =>
    match b.import_from with
    | some s => if s ≠ "" then addImport imps s (b.name, b.alias_) else imps
    | none => imps
  | none => imps

/-- One field type's import (olivier.py lines 61–64), with the same walrus
truthiness test. -/
def fieldImport (acc : Imports) (f : FieldDefinition) : Imports :=
  match f.type.import_from with
  | some s => if s ≠ "" then addImport acc s (f.type.name, f.type.alias_) else acc
  | none => acc

/-- Phase-1 import collection for one model (olivier.py lines 54–64). -/
def modelImports (imps : Imports) (m : ModelDefinition) : Imports :=
  m.fields.foldl fieldImport (baseImport imps m)

/-- Phase-1 over all models (lines 54–64). -/
def collectImports (models : List ModelDefinition) : Imports :=
  models.foldl modelImports []

/-- `type_ref` (lines 43–49): a present alias — even an empty string — replaces
the name (`t.get("alias", t["name"])`); the list and optional wrappers apply when
those keys are truthy. -/
def type_ref (t : TypeInfo) : String :=
  let ref := match t.alias_ with
    | some a => a
    | none => t.name
  let ref := if t.list.getD false then "list[" ++ ref ++ "]" else ref
  if t.optional.getD false then ref ++ " | None" else ref

/-- One rendered field line (lines 108–112); the walrus test of line 110 makes an
empty default string falsy, so it is not emitted. -/
def fieldLine (f : FieldDefinition) : String :=
  let line := "    " ++ f.name ++ ": " ++ type_ref f.type
  match f.default with
  | some d => if d ≠ "" then line ++ " = " ++ d else line
  | none => line

/-- One rendered `ConfigDict` argument (lines 95–99): strings get single quotes,
anything else its repr. -/
def cfgItem : String × CfgVal → String
  | (k, CfgVal.s v) => k ++ "=\x27" ++ v ++ "\x27"
  | (k, CfgVal.other r) => k ++ "=" ++ r

/-- Docstring lines (lines 88–91); an empty description is falsy. -/
def descLines : Option String → List String
  | some d => if d ≠ "" then ["    \"\"\"" ++ d ++ "\"\"\"", ""] else []
  | none => []

/-- The `model_config` lines (lines 94–103), emitted only for a non-empty config. -/
def configLines (config : List (String × CfgVal)) : List String :=
  if config.length > 0 then
    ["    model_config = ConfigDict(" ++ String.intercalate ", " (config.map cfgItem) ++ ")",
     ""]
  else []

/-- The class-rendering loop body for one model (olivier.py lines 77–114): header
(with `BaseModel` as the default base name), optional docstring, optional
`model_config` line, field lines, trailing blank line. -/
def classLines (m : ModelDefinition) : List String :=
  let base_name := match m.base with
    | some b => type_ref b
    | none => "BaseModel"
  ("class " ++ m.name ++ "(" ++ base_name ++ "):") ::
    (descLines m.description ++ configLines m.config ++ m.fields.map fieldLine ++ [""])

/-- The import additions made by the class loop for one model (lines 81–83 and
100–105): `BaseModel` from pydantic when the model has no base, `ConfigDict` from
pydantic when its config is non-empty. -/
def classImports (imps : Imports) (m : ModelDefinition) : Imports :=
  let imps := match m.base with
    | some _ => imps
    | none => addImport imps "pydantic" ("BaseModel", none)
  if m.config.length > 0 then addImport imps "pydantic" ("ConfigDict", none) else imps

/-- Python's sort key for an import item: `(x[0], x[1] or "")` (line 69). -/
def itemKey (it : ImportItem) : String × String := (it.1, it.2.getD "")

/-- Python tuple comparison of two item keys. -/
def keyLe (p q : String × String) : Prop :=
  pyStrLt p.1 q.1 ∨ (p.1 = q.1 ∧ pyStrLe p.2 q.2)

instance : DecidableRel keyLe := fun p q => by unfold keyLe; infer_instance

instance : DecidableRel (fun a b : ImportItem => keyLe (itemKey a) (itemKey b)) :=
  fun a b => inferInstanceAs (Decidable (keyLe (itemKey a) (itemKey b)))

/-- One rendered import fragment: `name` or `name as alias` (line 72; an empty
alias is falsy). -/
def itemPart (it : ImportItem) : String :=
  match it.2 with
  | some a => if a ≠ "" then it.1 ++ " as " ++ a else it.1
  | none => it.1

/-- `itemPart` factored through the sort key (an absent alias and an empty alias
render identically). -/
def keyPart (p : String × String) : String :=
  if p.2 = "" then p.1 else p.1 ++ " as " ++ p.2

/-- One `from module import ...` line (lines 68–73 and 118–123). CPython's
`sorted` is stable with respect to the set's unspecified iteration order; it is
embedded as an insertion sort (also stable) of the canonical enumeration, and
`moduleLine_perm` below shows the rendered line is the same for every
enumeration order. -/
def moduleLine (module : String) (items : List ImportItem) : String :=
  let sortedItems := List.insertionSort (fun a b => keyLe (itemKey a) (itemKey b)) items
  "from " ++ module ++ " import " ++ String.intercalate ", " (sortedItems.map itemPart)

/-- `import_lines` (lines 117–123): modules in sorted order, each rendered by
`moduleLine`. (Lines 66–73 compute the same list and discard it; line 117
recomputes it after the class loop's additions.) -/
def renderImportLines (imps : Imports) : List String :=
  let mods := List.insertionSort pyStrLe (imps.map Prod.fst)
  mods.map (fun m => moduleLine m ((List.lookup m imps).getD []))

/-- The trailing-blank-line strip (lines 133–134). -/
def dropTrailingBlank (out : List String) : List String :=
  (out.reverse.dropWhile (fun l => decide (l = ""))).reverse

/-- `build_model_definitions` (lines 42–136) given an explicit enumeration `imps`
of the phase-1 import sets. -/
def buildWith (models : List ModelDefinition) (imps : Imports) : String :=
  let finalImps := models.foldl classImports imps
  let import_lines := renderImportLines finalImps
  let class_lines := (models.map classLines).flatten
  let out := import_lines ++ (if import_lines ≠ [] then [""] else []) ++ class_lines
  String.intercalate "\n" (dropTrailingBlank out)

/-- `build_model_definitions` (olivier.py lines 42–136) with the canonical
insertion-order enumeration of the import sets. -/
def build_model_definitions (models : List ModelDefinition) : String :=
  buildWith models (collectImports models)

/-- The import mapping actually rendered: phase-1 collection plus the class
loop's additions. -/
def finalImports (models : List ModelDefinition) : Imports :=
  models.foldl classImports (collectImports models)

theorem charEq_of_toNat_eq {a b : Char} (h : a.toNat = b.toNat) : a = b :=
  Char.ext (UInt32.toNat.inj h)

theorem charsLt_irrefl : ∀ as, charsLt as as = false := by
  intro as
  induction as with
  | nil => rfl
  | cons a as ih => simp [charsLt, ih]

theorem charsLt_asymm : ∀ as bs, charsLt as bs = true → charsLt bs as = false := by
  intro as
  induction as with
  | nil =>
    intro bs h
    cases bs with
    | nil => simp [charsLt] at h
    | cons b bs => rfl
  | cons a as ih =>
    intro bs h
    cases bs with
    | nil => simp [charsLt] at h
    | cons b bs =>
      simp only [charsLt] at h ⊢
      rcases Nat.lt_trichotomy a.toNat b.toNat with hlt | heq | hgt
      · simp [hlt, Nat.lt_asymm hlt]
      · simp only [heq, Nat.lt_irrefl, if_false] at h ⊢
        exact ih bs h
      · simp [hgt, Nat.lt_asymm hgt] at h
  
theorem charsLt_trans : ∀ as bs cs, charsLt as bs = true → charsLt bs cs = true →
    charsLt as cs = true := by
  intro as
  induction as with
  | nil =>
    intro bs cs h1 h2
    cases bs with
    | nil => simp [charsLt] at h1
    | cons b bs =>
      cases cs with
      | nil => simp [charsLt] at h2
      | cons c cs => rfl
  | cons a as ih =>
    intro bs cs h1 h2
    cases bs with
    | nil => simp [charsLt] at h1
    | cons b bs =>
      cases cs with
      | nil => simp [charsLt] at h2
      | cons c cs =>
        simp only [charsLt] at h1 h2 ⊢
        rcases Nat.lt_trichotomy a.toNat b.toNat with hab | hab | hab <;>
          rcases Nat.lt_trichotomy b.toNat c.toNat with hbc | hbc | hbc
        · simp [Nat.lt_trans hab hbc, Nat.lt_asymm (Nat.lt_trans hab hbc)]
        · simp [hbc ▸ hab, Nat.lt_asymm (hbc ▸ hab)]
        · simp [hbc, Nat.lt_asymm hbc] at h2
        · simp [hab ▸ hbc]
        · simp only [hab, hbc, Nat.lt_irrefl, if_false] at h1 h2 ⊢
          exact ih bs cs h1 h2
        · simp [hbc, Nat.lt_asymm hbc] at h2
        · simp [hab, Nat.lt_asymm hab] at h1
        · simp [hab, Nat.lt_asymm hab] at h1
        · simp [hab, Nat.lt_asymm hab] at h1

theorem charsLt_trichotomy : ∀ as bs, charsLt as bs = true ∨ as = bs ∨ charsLt bs as = true := by
  intro as
  induction as with
  | nil =>
    intro bs
    cases bs with
    | nil => exact Or.inr (Or.inl rfl)
    | cons b bs => exact Or.inl rfl
  | cons a as ih =>
    intro bs
    cases bs with
    | nil => exact Or.inr (Or.inr rfl)
    | cons b bs =>
      rcases Nat.lt_trichotomy a.toNat b.toNat with hab | hab | hab
      · exact Or.inl (by simp [charsLt, hab])
      · have hc : a = b := charEq_of_toNat_eq hab
        subst hc
        rcases ih bs with h | h | h
        · exact Or.inl (by simp [charsLt, h])
        · exact Or.inr (Or.inl (by rw [h]))
        · exact Or.inr (Or.inr (by simp [charsLt, h]))
      · exact Or.inr (Or.inr (by simp [charsLt, hab, Nat.lt_asymm hab]))

theorem charsLe_iff : ∀ as bs, charsLe as bs = true ↔ (charsLt as bs = true ∨ as = bs) := by
  intro as
  induction as with
  | nil =>
    intro bs
    cases bs with
    | nil => simp [charsLe, charsLt]
    | cons b bs => simp [charsLe, charsLt]
  | cons a as ih =>
    intro bs
    cases bs with
    | nil => simp [charsLe, charsLt]
    | cons b bs =>
      simp only [charsLe, charsLt]
      rcases Nat.lt_trichotomy a.toNat b.toNat with hab | hab | hab
      · simp [hab]
      · have hc : a = b := charEq_of_toNat_eq hab
        subst hc
        simp only [Nat.lt_irrefl, if_false]
        rw [ih bs]
        constructor
        · rintro (h | h)
          · exact Or.inl h
          · exact Or.inr (by rw [h])
        · rintro (h | h)
          · exact Or.inl h
          · exact Or.inr (by injection h)
      · have hne : (a :: as) ≠ (b :: bs) := by
          intro h
          injection h with h1 _
          rw [h1] at hab
          omega
        simp [hab, Nat.lt_asymm hab, hne]

theorem charsLe_total : ∀ as bs, charsLe as bs = true ∨ charsLe bs as = true := by
  intro as bs
  rcases charsLt_trichotomy as bs with h | h | h
  · exact Or.inl ((charsLe_iff as bs).mpr (Or.inl h))
  · exact Or.inl ((charsLe_iff as bs).mpr (Or.inr h))
  · exact Or.inr ((charsLe_iff bs as).mpr (Or.inl h))

theorem charsLe_antisymm {as bs : List Char} (h1 : charsLe as bs = true)
    (h2 : charsLe bs as = true) : as = bs := by
  rcases (charsLe_iff as bs).mp h1 with h1 | h1
  · rcases (charsLe_iff bs as).mp h2 with h2 | h2
    · have := charsLt_asymm as bs h1
      rw [h2] at this
      exact absurd this (by simp)
    · exact h2.symm
  · exact h1

theorem charsLe_trans {as bs cs : List Char} (h1 : charsLe as bs = true)
    (h2 : charsLe bs cs = true) : charsLe as cs = true := by
  rcases (charsLe_iff as bs).mp h1 with h1 | h1 <;>
    rcases (charsLe_iff bs cs).mp h2 with h2 | h2
  · exact (charsLe_iff as cs).mpr (Or.inl (charsLt_trans _ _ _ h1 h2))
  · rw [← h2]
    exact (charsLe_iff as bs).mpr (Or.inl h1)
  · rw [h1]
    exact (charsLe_iff bs cs).mpr (Or.inl h2)
  · rw [h1, h2]
    exact (charsLe_iff cs cs).mpr (Or.inr rfl)

instance : IsTotal String pyStrLe := ⟨fun a b => charsLe_total a.data b.data⟩

instance : IsTrans String pyStrLe := ⟨fun _ _ _ h1 h2 => charsLe_trans h1 h2⟩

instance : IsAntisymm String pyStrLe := ⟨fun _ _ h1 h2 => String.ext (charsLe_antisymm h1 h2)⟩

theorem pyStrLt_trichotomy (a b : String) : pyStrLt a b ∨ a = b ∨ pyStrLt b a := by
  rcases charsLt_trichotomy a.data b.data with h | h | h
  · exact Or.inl h
  · exact Or.inr (Or.inl (String.ext h))
  · exact Or.inr (Or.inr h)

theorem pyStrLt_asymm {a b : String} (h : pyStrLt a b) : ¬ pyStrLt b a := by
  intro h2
  have := charsLt_asymm a.data b.data h
  rw [h2] at this
  exact absurd this (by simp)

theorem pyStrLt_trans {a b c : String} (h1 : pyStrLt a b) (h2 : pyStrLt b c) : pyStrLt a c :=
  charsLt_trans _ _ _ h1 h2

theorem pyStrLe_refl (a : String) : pyStrLe a a := (charsLe_iff _ _).mpr (Or.inr rfl)

instance : IsTotal (String × String) keyLe := by
  refine ⟨fun p q => ?_⟩
  rcases pyStrLt_trichotomy p.1 q.1 with h | h | h
  · exact Or.inl (Or.inl h)
  · rcases charsLe_total p.2.data q.2.data with h2 | h2
    · exact Or.inl (Or.inr ⟨h, h2⟩)
    · exact Or.inr (Or.inr ⟨h.symm, h2⟩)
  · exact Or.inr (Or.inl h)

instance : IsTrans (String × String) keyLe := by
  refine ⟨fun p q r h1 h2 => ?_⟩
  rcases h1 with h1 | ⟨h1e, h1l⟩ <;> rcases h2 with h2 | ⟨h2e, h2l⟩
  · exact Or.inl (pyStrLt_trans h1 h2)
  · exact Or.inl (h2e ▸ h1)
  · exact Or.inl (h1e ▸ h2)
  · exact Or.inr ⟨h1e.trans h2e, charsLe_trans h1l h2l⟩

instance : IsAntisymm (String × String) keyLe := by
  refine ⟨fun p q h1 h2 => ?_⟩
  rcases h1 with h1 | ⟨h1e, h1l⟩
  · rcases h2 with h2 | ⟨h2e, h2l⟩
    · exact absurd h2 (pyStrLt_asymm h1)
    · rw [h2e] at h1
      exact absurd h1 (pyStrLt_asymm h1)
  · rcases h2 with h2 | ⟨h2e, h2l⟩
    · rw [h1e] at h2
      exact absurd h2 (pyStrLt_asymm h2)
    · exact Prod.ext h1e (String.ext (charsLe_antisymm h1l h2l))

instance : IsTotal ImportItem (fun a b => keyLe (itemKey a) (itemKey b)) :=
  ⟨fun a b => IsTotal.total (itemKey a) (itemKey b)⟩

instance : IsTrans ImportItem (fun a b => keyLe (itemKey a) (itemKey b)) :=
  ⟨fun _ _ _ h1 h2 => IsTrans.trans _ _ _ h1 h2⟩

/-- C7: the rendered import statements list the modules in sorted order, and
within each module's statement the imported symbols appear sorted by symbol name
and then by alias (an absent alias compares as the empty string, per the key
`(x[0], x[1] or "")`). -/
theorem c7_import_lines_sorted (imps : Imports) :
    (∃ ms : List String, ms.Perm (imps.map Prod.fst) ∧ ms.Sorted pyStrLe ∧
      renderImportLines imps =
        ms.map (fun m => moduleLine m ((List.lookup m imps).getD []))) ∧
    (∀ module items, ∃ sortedItems : List ImportItem,
      sortedItems.Perm items ∧
      sortedItems.Sorted (fun a b => keyLe (itemKey a) (itemKey b)) ∧
      moduleLine module items =
        "from " ++ module ++ " import " ++
          String.intercalate ", " (sortedItems.map itemPart)) := by
  constructor
  · exact ⟨List.insertionSort pyStrLe (imps.map Prod.fst),
      List.perm_insertionSort _ _, List.sorted_insertionSort _ _, rfl⟩
  · intro module items
    exact ⟨List.insertionSort (fun a b => keyLe (itemKey a) (itemKey b)) items,
      List.perm_insertionSort _ _, List.sorted_insertionSort _ _, rfl⟩

theorem lookup_eq_none_iff_keys {β : Type} (l : List (String × β)) (k : String) :
    List.lookup k l = none ↔ k ∉ l.map Prod.fst := by
  induction l with
  | nil => simp [List.lookup]
  | cons p rest ih =>
    obtain ⟨k1, v1⟩ := p
    by_cases hk : k = k1
    · subst hk
      simp [List.lookup]
    · simp [List.lookup, beq_eq_false_iff_ne.mpr hk, ih, hk]

theorem mem_of_lookup_eq_some {β : Type} {l : List (String × β)} {k : String} {v : β}
    (h : List.lookup k l = some v) : (k, v) ∈ l := by
  induction l with
  | nil => simp [List.lookup] at h
  | cons p rest ih =>
    obtain ⟨k1, v1⟩ := p
    by_cases hk : k = k1
    · subst hk
      simp only [List.lookup, beq_self_eq_true] at h
      injection h with h
      subst h
      exact List.mem_cons_self _ _
    · rw [List.lookup] at h
      rw [beq_eq_false_iff_ne.mpr hk] at h
      exact List.mem_cons_of_mem _ (ih h)

theorem lookup_eq_some_of_mem_nodup {β : Type} {l : List (String × β)} {k : String} {v : β}
    (hnd : (l.map Prod.fst).Nodup) (h : (k, v) ∈ l) : List.lookup k l = some v := by
  induction l with
  | nil => simp at h
  | cons p rest ih =>
    obtain ⟨k1, v1⟩ := p
    simp only [List.map_cons, List.nodup_cons] at hnd
    rcases List.mem_cons.mp h with heq | hmem
    · injection heq with h1 h2
      subst h1; subst h2
      simp [List.lookup]
    · have hk : k ≠ k1 := by
        intro hc
        subst hc
        exact hnd.1 (List.mem_map.mpr ⟨(k, v), hmem, rfl⟩)
      rw [List.lookup]
      rw [beq_eq_false_iff_ne.mpr hk]
      exact ih hnd.2 hmem

theorem addImport_lookup (imps : Imports) (module : String) (it : ImportItem) (x : String) :
    List.lookup x (addImport imps module it) =
      if x = module then some (insItem ((List.lookup module imps).getD []) it)
      else List.lookup x imps := by
  induction imps with
  | nil =>
    by_cases hx : x = module
    · subst hx
      simp [addImport, List.lookup, insItem]
    · simp [addImport, List.lookup, beq_eq_false_iff_ne.mpr hx, hx]
  | cons p rest ih =>
    obtain ⟨m, its⟩ := p
    by_cases hm : m = module
    · subst hm
      simp only [addImport, if_pos rfl]
      by_cases hx : x = m
      · subst hx
        simp [List.lookup]
      · simp [List.lookup, beq_eq_false_iff_ne.mpr hx, hx]
    · simp only [addImport, if_neg hm]
      by_cases hx : x = m
      · subst hx
        have hxm : x ≠ module := hm
        simp [List.lookup, beq_self_eq_true, if_neg hxm, hxm]
      · simp only [List.lookup, beq_eq_false_iff_ne.mpr hx, ih]
        have hmm : module ≠ m := fun hc => hm hc.symm
        by_cases hxmod : x = module
        · subst hxmod
          simp [List.lookup, beq_eq_false_iff_ne.mpr hmm, if_pos rfl]
        · simp [if_neg hxmod]

theorem addImport_keys (imps : Imports) (module : String) (it : ImportItem) :
    (addImport imps module it).map Prod.fst =
      if module ∈ imps.map Prod.fst then imps.map Prod.fst
      else imps.map Prod.fst ++ [module] := by
  induction imps with
  | nil => simp [addImport]
  | cons p rest ih =>
    obtain ⟨m, its⟩ := p
    by_cases hm : m = module
    · subst hm
      simp [addImport]
    · have hmm : module ≠ m := fun hc => hm hc.symm
      simp only [addImport, if_neg hm, List.map_cons, ih, List.mem_cons]
      by_cases hmem : module ∈ rest.map Prod.fst
      · simp [hmem, hmm]
      · simp [hmem, hmm]

theorem addImport_keys_nodup {imps : Imports} (h : (imps.map Prod.fst).Nodup)
    (module : String) (it : ImportItem) :
    ((addImport imps module it).map Prod.fst).Nodup := by
  rw [addImport_keys]
  by_cases hmem : module ∈ imps.map Prod.fst
  · rw [if_pos hmem]; exact h
  · rw [if_neg hmem]
    exact ((List.nodup_cons.mpr ⟨hmem, h⟩).perm (List.perm_append_singleton _ _).symm)

theorem insItem_perm {its1 its2 : List ImportItem} (h : its1.Perm its2) (it : ImportItem) :
    (insItem its1 it).Perm (insItem its2 it) := by
  unfold insItem
  by_cases hm : it ∈ its1
  · rw [if_pos hm, if_pos (h.mem_iff.mp hm)]
    exact h
  · rw [if_neg hm, if_neg (fun hc => hm (h.mem_iff.mpr hc))]
    exact h.append (List.Perm.refl _)

/-- Two enumerations of the same import mapping: the same modules up to order
(without duplicates) and, for each module, the same item set up to order. The
canonical `collectImports` builds one such enumeration; any iteration order of a
CPython run's `defaultdict(set)` yields another. -/
def ImpEquiv (i1 i2 : Imports) : Prop :=
  (i1.map Prod.fst).Nodup ∧ (i2.map Prod.fst).Nodup ∧
  (i1.map Prod.fst).Perm (i2.map Prod.fst) ∧
  ∀ p ∈ i1, ∃ q ∈ i2, p.1 = q.1 ∧ p.2.Perm q.2

instance (i1 i2 : Imports) : Decidable (ImpEquiv i1 i2) := by
  unfold ImpEquiv
  infer_instance

theorem impEquiv_lookup {i1 i2 : Imports} (h : ImpEquiv i1 i2) (m : String) :
    ((List.lookup m i1).getD []).Perm ((List.lookup m i2).getD []) := by
  obtain ⟨hnd1, hnd2, hkeys, hmem⟩ := h
  cases hl : List.lookup m i1 with
  | none =>
    have h1 : m ∉ i1.map Prod.fst := (lookup_eq_none_iff_keys _ _).mp hl
    have h2 : m ∉ i2.map Prod.fst := fun hc => h1 (hkeys.mem_iff.mpr hc)
    rw [(lookup_eq_none_iff_keys _ _).mpr h2]
  | some its =>
    have hm1 : (m, its) ∈ i1 := mem_of_lookup_eq_some hl
    obtain ⟨q, hq2, hfst, hperm⟩ := hmem (m, its) hm1
    obtain ⟨qm, qits⟩ := q
    simp only at hfst hperm
    subst hfst
    rw [lookup_eq_some_of_mem_nodup hnd2 hq2]
    exact hperm

theorem impEquiv_addImport {i1 i2 : Imports} (h : ImpEquiv i1 i2) (module : String)
    (it : ImportItem) : ImpEquiv (addImport i1 module it) (addImport i2 module it) := by
  have hlk := impEquiv_lookup h module
  obtain ⟨hnd1, hnd2, hkeys, hmem⟩ := h
  refine ⟨addImport_keys_nodup hnd1 module it, addImport_keys_nodup hnd2 module it, ?_, ?_⟩
  · rw [addImport_keys, addImport_keys]
    by_cases hmm : module ∈ i1.map Prod.fst
    · rw [if_pos hmm, if_pos (hkeys.mem_iff.mp hmm)]
      exact hkeys
    · rw [if_neg hmm, if_neg (fun hc => hmm (hkeys.mem_iff.mpr hc))]
      exact hkeys.append (List.Perm.refl _)
  · intro p hp
    obtain ⟨p1, p2⟩ := p
    have hndA := addImport_keys_nodup hnd1 module it
    have hlp : List.lookup p1 (addImport i1 module it) = some p2 :=
      lookup_eq_some_of_mem_nodup hndA hp
    rw [addImport_lookup] at hlp
    by_cases hpm : p1 = module
    · rw [if_pos hpm] at hlp
      injection hlp with hlp
      refine ⟨(module, insItem ((List.lookup module i2).getD []) it), ?_, hpm, ?_⟩
      · apply mem_of_lookup_eq_some (k := module)
        rw [addImport_lookup]
        simp
      · rw [← hlp]
        exact insItem_perm hlk it
    · rw [if_neg hpm] at hlp
      have hp1 : (p1, p2) ∈ i1 := mem_of_lookup_eq_some hlp
      obtain ⟨q, hq2, hfst, hperm⟩ := hmem (p1, p2) hp1
      obtain ⟨q1, q2⟩ := q
      simp only at hfst hperm
      refine ⟨(q1, q2), ?_, hfst, hperm⟩
      apply mem_of_lookup_eq_some (k := q1)
      rw [addImport_lookup]
      rw [if_neg (by rw [← hfst]; exact hpm)]
      exact lookup_eq_some_of_mem_nodup hnd2 hq2

theorem itemPart_eq_keyPart (it : ImportItem) : itemPart it = keyPart (itemKey it) := by
  obtain ⟨n, a⟩ := it
  cases a with
  | none => simp [itemPart, itemKey, keyPart]
  | some a =>
    by_cases ha : a = ""
    · simp [itemPart, itemKey, keyPart, ha]
    · simp [itemPart, itemKey, keyPart, ha]

/-- The rendered `from ... import ...` line is invariant under reordering of the
module's item set: the sort key determines the rendered fragment, so ties broken
differently by different set iteration orders render identically. -/
theorem moduleLine_perm (module : String) {its1 its2 : List ImportItem}
    (h : its1.Perm its2) : moduleLine module its1 = moduleLine module its2 := by
  unfold moduleLine
  have hperm : ((List.insertionSort (fun a b => keyLe (itemKey a) (itemKey b)) its1).map
      itemKey).Perm
      ((List.insertionSort (fun a b => keyLe (itemKey a) (itemKey b)) its2).map itemKey) :=
    ((List.perm_insertionSort _ its1).trans
      (h.trans (List.perm_insertionSort _ its2).symm)).map _
  have hs1 : ((List.insertionSort (fun a b => keyLe (itemKey a) (itemKey b)) its1).map
      itemKey).Sorted keyLe :=
    List.Pairwise.map itemKey (fun _ _ hr => hr) (List.sorted_insertionSort _ its1)
  have hs2 : ((List.insertionSort (fun a b => keyLe (itemKey a) (itemKey b)) its2).map
      itemKey).Sorted keyLe :=
    List.Pairwise.map itemKey (fun _ _ hr => hr) (List.sorted_insertionSort _ its2)
  have hkeys := List.eq_of_perm_of_sorted hperm hs1 hs2
  have hfun : itemPart = keyPart ∘ itemKey := funext itemPart_eq_keyPart
  have e1 : ∀ l : List ImportItem, l.map itemPart = (l.map itemKey).map keyPart := by
    intro l
    rw [List.map_map, hfun]
  have hmaps : (List.insertionSort (fun a b => keyLe (itemKey a) (itemKey b)) its1).map
      itemPart =
      (List.insertionSort (fun a b => keyLe (itemKey a) (itemKey b)) its2).map itemPart := by
    rw [e1, e1, hkeys]
  simp only [hmaps]

/-- The whole import block is invariant across equivalent enumerations of
the import mapping. -/
theorem renderImportLines_impEquiv {i1 i2 : Imports} (h : ImpEquiv i1 i2) :
    renderImportLines i1 = renderImportLines i2 := by
  have hmods : List.insertionSort pyStrLe (i1.map Prod.fst) =
      List.insertionSort pyStrLe (i2.map Prod.fst) :=
    List.eq_of_perm_of_sorted
      ((List.perm_insertionSort _ _).trans (h.2.2.1.trans (List.perm_insertionSort _ _).symm))
      (List.sorted_insertionSort _ _) (List.sorted_insertionSort _ _)
  unfold renderImportLines
  rw [hmods]
  have hfun : (fun m => moduleLine m ((List.lookup m i1).getD [])) =
      (fun m => moduleLine m ((List.lookup m i2).getD [])) :=
    funext (fun m => moduleLine_perm m (impEquiv_lookup h m))
  rw [hfun]

theorem impEquiv_classImports {i1 i2 : Imports} (h : ImpEquiv i1 i2)
    (m : ModelDefinition) : ImpEquiv (classImports i1 m) (classImports i2 m) := by
  unfold classImports
  cases m.base with
  | some b =>
    simp only
    by_cases hc : m.config.length > 0
    · rw [if_pos hc, if_pos hc]
      exact impEquiv_addImport h _ _
    · rw [if_neg hc, if_neg hc]
      exact h
  | none =>
    simp only
    by_cases hc : m.config.length > 0
    · rw [if_pos hc, if_pos hc]
      exact impEquiv_addImport (impEquiv_addImport h _ _) _ _
    · rw [if_neg hc, if_neg hc]
      exact impEquiv_addImport h _ _

theorem impEquiv_foldl_classImports {i1 i2 : Imports} (models : List ModelDefinition)
    (h : ImpEquiv i1 i2) :
    ImpEquiv (models.foldl classImports i1) (models.foldl classImports i2) := by
  induction models generalizing i1 i2 with
  | nil => exact h
  | cons m rest ih => exact ih (impEquiv_classImports h m)

/-- C5: `build_model_definitions` is deterministic — the output text does not
depend on the enumeration order of the per-module import sets (the only
run-to-run nondeterminism in the function: CPython set iteration order varies
with hash seed, and the code sorts with a non-injective key). Any two runs over
equal model lists produce byte-identical output. -/
theorem buildWith_impEquiv (models : List ModelDefinition) {i1 i2 : Imports}
    (h : ImpEquiv i1 i2) : buildWith models i1 = buildWith models i2 := by
  simp only [buildWith]
  rw [renderImportLines_impEquiv (impEquiv_foldl_classImports models h)]

/-- C5: `build_model_definitions` is deterministic — the output text does not
depend on the enumeration order of the per-module import sets (the only
run-to-run nondeterminism in the function: CPython set iteration order varies
with hash seed, and the code sorts with a non-injective key). Any two runs over
equal model lists produce byte-identical output. -/
theorem c5_build_model_definitions_deterministic (models : List ModelDefinition)
    (imps1 imps2 : Imports)
    (h1 : ImpEquiv imps1 (collectImports models))
    (h2 : ImpEquiv imps2 (collectImports models)) :
    buildWith models imps1 = buildWith models imps2 := by
  rw [buildWith_impEquiv models h1, buildWith_impEquiv models h2]

/-- Witness for C5: a concrete model list and a concretely permuted enumeration of
its import sets. -/
theorem c5_build_model_definitions_deterministic_witness :
    ImpEquiv [("a", [("Y", none), ("X", none)])]
      (collectImports
        [{ name := "M",
           fields := [{ name := "f1", type := { name := "X", import_from := some "a" } },
                      { name := "f2", type := { name := "Y", import_from := some "a" } }] }]) ∧
    buildWith
      [{ name := "M",
         fields := [{ name := "f1", type := { name := "X", import_from := some "a" } },
                    { name := "f2", type := { name := "Y", import_from := some "a" } }] }]
      [("a", [("Y", none), ("X", none)])] =
    buildWith
      [{ name := "M",
         fields := [{ name := "f1", type := { name := "X", import_from := some "a" } },
                    { name := "f2", type := { name := "Y", import_from := some "a" } }] }]
      (collectImports
        [{ name := "M",
           fields := [{ name := "f1", type := { name := "X", import_from := some "a" } },
                      { name := "f2", type := { name := "Y", import_from := some "a" } }] }]) := by
  constructor
  · decide
  · exact c5_build_model_definitions_deterministic _ _ _ (by decide) (by decide)

/-- C6: a model with no base entry and an empty config renders with the default
`BaseModel` base and no `model_config` line: its class block (the lines
`build_model_definitions` appends for it, see `buildWith`) is exactly the header,
the docstring lines, the field lines and one blank line. -/
theorem c6_default_base_no_config (m : ModelDefinition)
    (hb : m.base = none) (hc : m.config = []) :
    classLines m = ("class " ++ m.name ++ "(" ++ "BaseModel" ++ "):") ::
      (descLines m.description ++ m.fields.map fieldLine ++ [""]) := by
  simp [classLines, hb, hc, configLines]

/-- Witness for C6 at a concrete model. -/
theorem c6_default_base_no_config_witness :
    classLines { name := "User", fields := [{ name := "id", type := { name := "int" } }] } =
      ["class User(BaseModel):", "    id: int", ""] := by
  rw [c6_default_base_no_config _ rfl rfl]
  rfl

/-- C2 counterexample: two field descriptors import the same symbol name `X` from
two different modules; the renderer emits both unaliased — `from a import X` and
`from b import X` (the second would shadow the first in Python). No aliases are
assigned to resolve the collision. -/
theorem c2_counterexample :
    build_model_definitions
      [{ name := "M",
         fields := [{ name := "f1", type := { name := "X", import_from := some "a" } },
                    { name := "f2", type := { name := "X", import_from := some "b" } }] }] =
      "from a import X\nfrom b import X\nfrom pydantic import BaseModel\n\nclass M(BaseModel):\n    f1: X\n    f2: X" := by
  rfl

/-- The ways a `(module, item)` import can be demanded by the inputs of
`build_model_definitions`: a base-type descriptor, a field-type descriptor, or
the class loop's synthetic pydantic imports. -/
def mentionsImport (models : List ModelDefinition) (module : String)
    (x : ImportItem) : Prop :=
  (∃ m ∈ models,
    (∃ b, m.base = some b ∧ b.import_from = some module ∧ module ≠ "" ∧
      x = (b.name, b.alias_)) ∨
    (∃ f ∈ m.fields, f.type.import_from = some module ∧ module ≠ "" ∧
      x = (f.type.name, f.type.alias_))) ∨
  (module = "pydantic" ∧ x = ("BaseModel", none) ∧ ∃ m ∈ models, m.base = none) ∨
  (module = "pydantic" ∧ x = ("ConfigDict", none) ∧ ∃ m ∈ models, m.config ≠ [])

/-- Invariant of the import mapping: modules are not duplicated, each module's
item list is duplicate-free, and every item is demanded by the models. -/
def GoodImports (models : List ModelDefinition) (imps : Imports) : Prop :=
  (imps.map Prod.fst).Nodup ∧
  ∀ p ∈ imps, p.2.Nodup ∧ ∀ x ∈ p.2, mentionsImport models p.1 x

theorem insItem_nodup {its : List ImportItem} (h : its.Nodup) (it : ImportItem) :
    (insItem its it).Nodup := by
  unfold insItem
  by_cases hm : it ∈ its
  · rwa [if_pos hm]
  · rw [if_neg hm]
    exact (List.nodup_cons.mpr ⟨hm, h⟩).perm (List.perm_append_singleton _ _).symm

theorem insItem_mem {its : List ImportItem} {it x : ImportItem}
    (h : x ∈ insItem its it) : x ∈ its ∨ x = it := by
  unfold insItem at h
  by_cases hm : it ∈ its
  · rw [if_pos hm] at h
    exact Or.inl h
  · rw [if_neg hm] at h
    rcases List.mem_append.mp h with h | h
    · exact Or.inl h
    · exact Or.inr (by simpa using h)

theorem goodImports_addImport {models : List ModelDefinition} {imps : Imports}
    (h : GoodImports models imps) (module : String) (it : ImportItem)
    (hm : mentionsImport models module it) :
    GoodImports models (addImport imps module it) := by
  obtain ⟨hnd, hmem⟩ := h
  refine ⟨addImport_keys_nodup hnd module it, ?_⟩
  intro p hp
  obtain ⟨p1, p2⟩ := p
  show p2.Nodup ∧ ∀ x ∈ p2, mentionsImport models p1 x
  have hlp := lookup_eq_some_of_mem_nodup (addImport_keys_nodup hnd module it) hp
  rw [addImport_lookup] at hlp
  by_cases hpm : p1 = module
  · rw [if_pos hpm] at hlp
    injection hlp with hlp
    cases hl : List.lookup module imps with
    | none =>
      rw [hl] at hlp
      refine ⟨?_, ?_⟩
      · rw [← hlp]
        exact insItem_nodup List.nodup_nil it
      · intro x hx
        rw [← hlp] at hx
        rcases insItem_mem hx with hx | hx
        · simp at hx
        · rw [hx, hpm]
          exact hm
    | some prev =>
      rw [hl] at hlp
      have hprev := hmem (module, prev) (mem_of_lookup_eq_some hl)
      refine ⟨?_, ?_⟩
      · rw [← hlp]
        exact insItem_nodup hprev.1 it
      · intro x hx
        rw [← hlp] at hx
        rcases insItem_mem hx with hx | hx
        · rw [hpm]
          exact hprev.2 x hx
        · rw [hx, hpm]
          exact hm
  · rw [if_neg hpm] at hlp
    exact hmem (p1, p2) (mem_of_lookup_eq_some hlp)

theorem goodImports_baseImport {models : List ModelDefinition} {imps : Imports}
    {m : ModelDefinition} (h : GoodImports models imps) (hm : m ∈ models) :
    GoodImports models (baseImport imps m) := by
  unfold baseImport
  cases hb : m.base with
  | none => exact h
  | some b =>
    show GoodImports models
      (match b.import_from with
       | some s => if s ≠ "" then addImport imps s (b.name, b.alias_) else imps
       | none => imps)
    cases hbi : b.import_from with
    | none => exact h
    | some s =>
      show GoodImports models (if s ≠ "" then addImport imps s (b.name, b.alias_) else imps)
      by_cases hs : s = ""
      · rw [if_neg (fun hc => hc hs)]
        exact h
      · rw [if_pos hs]
        exact goodImports_addImport h s (b.name, b.alias_)
          (Or.inl ⟨m, hm, Or.inl ⟨b, hb, hbi, hs, rfl⟩⟩)

theorem goodImports_fieldImport {models : List ModelDefinition} {imps : Imports}
    {m : ModelDefinition} {f : FieldDefinition} (h : GoodImports models imps)
    (hm : m ∈ models) (hf : f ∈ m.fields) :
    GoodImports models (fieldImport imps f) := by
  unfold fieldImport
  cases hfi : f.type.import_from with
  | none => exact h
  | some s =>
    show GoodImports models (if s ≠ "" then addImport imps s (f.type.name, f.type.alias_) else imps)
    by_cases hs : s = ""
    · rw [if_neg (fun hc => hc hs)]
      exact h
    · rw [if_pos hs]
      exact goodImports_addImport h s (f.type.name, f.type.alias_)
        (Or.inl ⟨m, hm, Or.inr ⟨f, hf, hfi, hs, rfl⟩⟩)

theorem goodImports_modelImports {models : List ModelDefinition} {imps : Imports}
    {m : ModelDefinition} (h : GoodImports models imps) (hm : m ∈ models) :
    GoodImports models (modelImports imps m) := by
  unfold modelImports
  have hgen : ∀ (fs : List FieldDefinition), (∀ f ∈ fs, f ∈ m.fields) →
      ∀ acc, GoodImports models acc → GoodImports models (fs.foldl fieldImport acc) := by
    intro fs
    induction fs with
    | nil => exact fun _ acc h2 => h2
    | cons f rest ih =>
      intro hsub acc h2
      simp only [List.foldl_cons]
      exact ih (fun g hg => hsub g (List.mem_cons_of_mem _ hg)) _
        (goodImports_fieldImport h2 hm (hsub f (List.mem_cons_self f rest)))
  exact hgen m.fields (fun f hf => hf) _ (goodImports_baseImport h hm)

theorem goodImports_classImports {models : List ModelDefinition} {imps : Imports}
    {m : ModelDefinition} (h : GoodImports models imps) (hm : m ∈ models) :
    GoodImports models (classImports imps m) := by
  simp only [classImports]
  cases hb : m.base with
  | some b =>
    by_cases hc : m.config.length > 0
    · rw [if_pos hc]
      have hcfg : m.config ≠ [] := by
        intro hcf
        rw [hcf] at hc
        simp at hc
      exact goodImports_addImport h "pydantic" ("ConfigDict", none)
        (Or.inr (Or.inr ⟨rfl, rfl, m, hm, hcfg⟩))
    · rw [if_neg hc]
      exact h
  | none =>
    have step1 := goodImports_addImport h "pydantic" ("BaseModel", none)
      (Or.inr (Or.inl ⟨rfl, rfl, m, hm, hb⟩))
    by_cases hc : m.config.length > 0
    · rw [if_pos hc]
      have hcfg : m.config ≠ [] := by
        intro hcf
        rw [hcf] at hc
        simp at hc
      exact goodImports_addImport step1 "pydantic" ("ConfigDict", none)
        (Or.inr (Or.inr ⟨rfl, rfl, m, hm, hcfg⟩))
    · rw [if_neg hc]
      exact step1

theorem goodImports_collect (models : List ModelDefinition) :
    GoodImports models (collectImports models) := by
  unfold collectImports
  have hgen : ∀ (ms : List ModelDefinition), (∀ m ∈ ms, m ∈ models) →
      ∀ imps, GoodImports models imps → GoodImports models (ms.foldl modelImports imps) := by
    intro ms
    induction ms with
    | nil => exact fun _ imps h => h
    | cons m rest ih =>
      intro hsub imps h
      simp only [List.foldl_cons]
      exact ih (fun g hg => hsub g (List.mem_cons_of_mem _ hg)) _
        (goodImports_modelImports h (hsub m (List.mem_cons_self m rest)))
  refine hgen models (fun m hm => hm) [] ⟨List.nodup_nil, ?_⟩
  intro p hp
  simp at hp

theorem goodImports_final (models : List ModelDefinition) :
    GoodImports models (finalImports models) := by
  unfold finalImports
  have hgen : ∀ (ms : List ModelDefinition), (∀ m ∈ ms, m ∈ models) →
      ∀ imps, GoodImports models imps → GoodImports models (ms.foldl classImports imps) := by
    intro ms
    induction ms with
    | nil => exact fun _ imps h => h
    | cons m rest ih =>
      intro hsub imps h
      simp only [List.foldl_cons]
      exact ih (fun g hg => hsub g (List.mem_cons_of_mem _ hg)) _
        (goodImports_classImports h (hsub m (List.mem_cons_self m rest)))
  exact hgen models (fun m hm => hm) _ (goodImports_collect models)

/-- C2 (amended): in the rendered import mapping each module appears exactly once,
each `(name, alias)` pair appears exactly once in its module's entry, and every
entry is demanded by some base-type or field-type descriptor (or is one of the two
synthetic pydantic imports), so the import set is deduplicated and minimal.
Aliases are taken verbatim from the descriptors and ordered deterministically;
the renderer assigns no aliases, and colliding symbol names from different modules
stay unaliased (`c2_counterexample`). -/
theorem c2_imports_dedup_minimal (models : List ModelDefinition) :
    ((finalImports models).map Prod.fst).Nodup ∧
    ∀ p ∈ finalImports models, p.2.Nodup ∧ ∀ x ∈ p.2, mentionsImport models p.1 x :=
  goodImports_final models

/-- Witness for C2 (amended) at a concrete model list. -/
theorem c2_imports_dedup_minimal_witness :
    (("a", [(("X" : String), (none : Option String))]) ∈ finalImports
      [{ name := "M",
         fields := [{ name := "f1", type := { name := "X", import_from := some "a" } },
                    { name := "f2", type := { name := "X", import_from := some "a" } }] }]) ∧
    ([(("X" : String), (none : Option String))] : List ImportItem).Nodup ∧
    mentionsImport
      [{ name := "M",
         fields := [{ name := "f1", type := { name := "X", import_from := some "a" } },
                    { name := "f2", type := { name := "X", import_from := some "a" } }] }]
      "a" ("X", none) := by
  have h := (c2_imports_dedup_minimal
    [{ name := "M",
       fields := [{ name := "f1", type := { name := "X", import_from := some "a" } },
                  { name := "f2", type := { name := "X", import_from := some "a" } }] }]).2
    ("a", [("X", none)]) (by decide)
  exact ⟨by decide, h.1, h.2 ("X", none) (by decide)⟩

/-- A cell of the Python heap as seen by `create_partial`: a model dict (whose
`"fields"` value holds references to field dicts) or a field dict. A field's type
dict is stored inline in its field node: mutating the type dict is represented by
replacing the owning field node, which subsumes it for isolation purposes since
`deepcopy` copies every level. -/
inductive HNode where
  | mnode : String → Option String → List Nat → Option TypeInfo →
      List (String × CfgVal) → HNode
  | fnode : FieldDefinition → HNode

/-- The heap: addresses to cells. -/
abbrev Heap := Nat → Option HNode

/-- A caller-side mutation: overwrite (or delete, with `none`) the cell at `a`. -/
def heapSet (h : Heap) (a : Nat) (v : Option HNode) : Heap :=
  fun x => if x = a then v else h x

/-- Read one field dict. -/
def decodeField (h : Heap) (a : Nat) : Option FieldDefinition :=
  match h a with
  | some (HNode.fnode f) => some f
  | _ => none

/-- Read a whole model definition out of the heap. -/
def decodeModel (h : Heap) (a : Nat) : Option ModelDefinition :=
  match h a with
  | some (HNode.mnode nm d fas b cfg) =>
    (fas.mapM (decodeField h)).map (fun fs =>
      { name := nm, description := d, fields := fs, base := b, config := cfg })
  | _ => none

/-- The addresses making up the model rooted at `a`: the model dict itself and
its field dicts. Mutating the input model means updating one of these. -/
def modelAddrs (h : Heap) (a : Nat) : List Nat :=
  a :: (match h a with
        | some (HNode.mnode _ _ fas _ _) => fas
        | _ => [])

/-- Allocate a fresh copy of a pure model value: field dicts at `n + i`, the
model dict at `n + fields.length`. Returns the heap and the root address. This is
the object graph `deepcopy` plus the loop's in-place edits leave behind: wholly
fresh cells, sharing nothing with the argument. -/
def allocModel (h : Heap) (n : Nat) (md : ModelDefinition) : Heap × Nat :=
  let k := md.fields.length
  (fun a =>
    if a = n + k then
      some (HNode.mnode md.name md.description ((List.range k).map (n + ·))
        md.base md.config)
    else if n ≤ a ∧ a < n + k then (md.fields[a - n]?).map HNode.fnode
    else h a,
   n + k)

/-- `create_partial` at the heap level (olivier.py lines 235–273): read the
argument (what `deepcopy` walks), apply the pure derivation `createPartial`, and
materialise the result at fresh addresses from `n`. A malformed argument is a
`TypeError` (unreachable for well-formed inputs). -/
def createPartialHeap (h : Heap) (a n : Nat) (name : Option String)
    (map : List (String × MapVal))
    (include_ exclude required optional : Option (List String)) :
    Except PyErr (Heap × Nat) :=
  match decodeModel h a with
  | none => Except.error PyErr.typeError
  | some md =>
    match createPartial md name map include_ exclude required optional with
    | Except.error e => Except.error e
    | Except.ok md2 => Except.ok (allocModel h n md2)

instance : Inhabited FieldDefinition := ⟨{ name := "", type := { name := "" } }⟩

theorem mapM_option_eq_some {α β : Type} (f : α → Option β) (l : List α) (g2 : α → β)
    (h : ∀ x ∈ l, f x = some (g2 x)) : l.mapM f = some (l.map g2) := by
  induction l with
  | nil => rfl
  | cons x xs ih =>
    rw [List.mapM_cons, h x (List.mem_cons_self x xs),
      ih (fun y hy => h y (List.mem_cons_of_mem _ hy))]
    rfl

theorem range_map_getD {α : Type} [Inhabited α] (l : List α) :
    (List.range l.length).map (fun i => l.getD i default) = l := by
  apply List.ext_getElem
  · simp
  · intro i h1 h2
    simp only [List.getElem_map, List.getElem_range]
    rw [List.getD_eq_getElem]

/-- Decoding an allocated model succeeds and only looks at the fresh region: any
heap agreeing with the allocation result on addresses `≥ n` decodes the same
value. -/
theorem decodeModel_allocModel (h g : Heap) (n : Nat) (md : ModelDefinition)
    (hagree : ∀ a, n ≤ a → g a = (allocModel h n md).1 a) :
    decodeModel g (allocModel h n md).2 = some md := by
  have hk : (allocModel h n md).2 = n + md.fields.length := rfl
  have hroot : g (n + md.fields.length) =
      some (HNode.mnode md.name md.description
        ((List.range md.fields.length).map (n + ·)) md.base md.config) := by
    rw [hagree _ (Nat.le_add_right _ _)]
    simp [allocModel]
  have hfieldRead : ∀ i, i < md.fields.length →
      decodeField g (n + i) = some (md.fields.getD i default) := by
    intro i hi
    have hga : g (n + i) = (md.fields[(n + i) - n]?).map HNode.fnode := by
      rw [hagree _ (Nat.le_add_right _ _)]
      simp only [allocModel]
      rw [if_neg (by omega), if_pos (by omega)]
    have hidx : (n + i) - n = i := by omega
    rw [decodeField, hga, hidx, List.getElem?_eq_getElem hi]
    simp [List.getD, List.getElem?_eq_getElem hi]
  have hmapM : ((List.range md.fields.length).map (n + ·)).mapM (decodeField g) =
      some (((List.range md.fields.length).map (n + ·)).map
        (fun x => md.fields.getD (x - n) default)) := by
    apply mapM_option_eq_some
    intro x hx
    obtain ⟨i, hi, rfl⟩ := List.mem_map.mp hx
    have hi2 : i < md.fields.length := List.mem_range.mp hi
    have hidx : (n + i) - n = i := by omega
    rw [hidx, hfieldRead i hi2]
  rw [hk]
  simp only [decodeModel, hroot, hmapM]
  rw [List.map_map]
  have hcomp : ((fun x => md.fields.getD (x - n) default) ∘ (n + ·)) =
      fun i => md.fields.getD i default := by
    funext i
    simp [Nat.add_sub_cancel_left]
  rw [hcomp, range_map_getD]
  rfl

theorem createPartial_exclude_eval (md : ModelDefinition) (exclude : List String)
    (hne : exclude ≠ []) :
    createPartial md none [] none (some exclude) none none =
      Except.ok { md with
        fields := md.fields.filter (fun f => decide (f.name ∉ exclude)) } := by
  have hid : ∀ f, mapStep [] f = f := fun f => rfl
  have hmap : List.map (mapStep []) md.fields = md.fields := by
    have heq : mapStep [] = fun f => f := funext hid
    rw [heq]
    exact List.map_id' md.fields
  simp [createPartial, setTruthy, hne, hmap]

/-- C4: with a non-empty exclude set, `create_partial` returns a model definition
none of whose field names belongs to the exclude set, and the result is built from
a deep copy of the input: overwriting or deleting any cell of the input model —
its model dict or any of its field dicts — after the call leaves the decoded
result unchanged. -/
theorem c4_create_partial_exclude_deepcopy (h : Heap) (a n : Nat)
    (md : ModelDefinition) (exclude : List String)
    (hdec : decodeModel h a = some md)
    (hfresh : ∀ x ∈ modelAddrs h a, x < n)
    (hne : exclude ≠ []) :
    ∃ h2 r md2,
      createPartialHeap h a n none [] none (some exclude) none none =
        Except.ok (h2, r) ∧
      decodeModel h2 r = some md2 ∧
      (∀ f ∈ md2.fields, f.name ∉ exclude) ∧
      (∀ x ∈ modelAddrs h a, ∀ v, decodeModel (heapSet h2 x v) r = some md2) := by
  have hcp := createPartial_exclude_eval md exclude hne
  refine ⟨(allocModel h n
      { md with fields := md.fields.filter (fun f => decide (f.name ∉ exclude)) }).1,
    (allocModel h n
      { md with fields := md.fields.filter (fun f => decide (f.name ∉ exclude)) }).2,
    { md with fields := md.fields.filter (fun f => decide (f.name ∉ exclude)) },
    ?_, ?_, ?_, ?_⟩
  · simp [createPartialHeap, hdec, hcp]
  · exact decodeModel_allocModel h _ n _ (fun _ _ => rfl)
  · intro f hf
    simp only at hf
    exact of_decide_eq_true (List.mem_filter.mp hf).2
  · intro x hx v
    apply decodeModel_allocModel
    intro b hb
    have hxb : b ≠ x := by
      have := hfresh x hx
      omega
    simp [heapSet, hxb]

/-- A concrete three-cell heap: two field dicts and one model dict. -/
def heapEx : Heap := fun a =>
  if a = 0 then some (HNode.fnode { name := "a", type := { name := "int" } })
  else if a = 1 then some (HNode.fnode { name := "b", type := { name := "int" } })
  else if a = 2 then some (HNode.mnode "M" none [0, 1] none [])
  else none

/-- Witness for C4 at `heapEx`. -/
theorem c4_create_partial_exclude_deepcopy_witness :
    decodeModel heapEx 2 = some
      { name := "M",
        fields := [{ name := "a", type := { name := "int" } },
                   { name := "b", type := { name := "int" } }],
        config := [] } ∧
    (∀ x ∈ modelAddrs heapEx 2, x < 10) ∧ (["a"] : List String) ≠ [] ∧
    (∃ h2 r md2,
      createPartialHeap heapEx 2 10 none [] none (some ["a"]) none none =
        Except.ok (h2, r) ∧
      decodeModel h2 r = some md2 ∧
      (∀ f ∈ md2.fields, f.name ∉ (["a"] : List String)) ∧
      (∀ x ∈ modelAddrs heapEx 2, ∀ v, decodeModel (heapSet h2 x v) r = some md2)) := by
  refine ⟨by decide, by decide, by decide,
    c4_create_partial_exclude_deepcopy heapEx 2 10
      { name := "M",
        fields := [{ name := "a", type := { name := "int" } },
                   { name := "b", type := { name := "int" } }],
        config := [] }
      ["a"] (by decide) (by decide) (by decide)⟩
